import Mathlib

/-
Verification of the annealed Langevin sampler
(src/score/annealed_langevin.py) and the attention layer construction
(src/ddpm/models/layers.py, AttLayer.__init__).

Tensors are embedded shallowly as a shape (list of dimension sizes)
together with a flat list of rational values.  The external torch
primitives that the sampler calls are modelled as explicit parameters:
the score network as a function argument (as in the source), the random
generator behind torch.randn_like as a stream of rationals indexed by
draw number and element position, and the square root torch.sqrt as a
function parameter sqrtFn.  Moving a tensor to host memory (the
call .to(cpu) in the source) does not change its value and is the
identity in this model; the no-gradient decorator has no value-level
effect.
-/

/-- Tensor value: a shape and a flat list of entries. -/
structure Tensor where
  shape : List ℕ
  data : List ℚ
deriving Repr, DecidableEq

/-- Elementwise clamp of a single value, as torch.clamp does it:
min(max(v, lo), hi). -/
def clampVal (lo hi v : ℚ) : ℚ := min (max v lo) hi

/-- Elementwise clamp of a tensor (torch.clamp(x, lo, hi)). -/
def Tensor.clamp (t : Tensor) (lo hi : ℚ) : Tensor :=
  ⟨t.shape, t.data.map (clampVal lo hi)⟩

/-- Elementwise addition of two tensors of the same shape (torch +). -/
def Tensor.add (a b : Tensor) : Tensor :=
  ⟨a.shape, List.zipWith (· + ·) a.data b.data⟩

/-- Multiplication of a tensor by a scalar (torch scalar * tensor). -/
def Tensor.scale (c : ℚ) (t : Tensor) : Tensor :=
  ⟨t.shape, t.data.map (c * ·)⟩

/-- Model of torch.randn_like(x): a fresh tensor of the shape of x whose
entries come from the random stream at draw index d. -/
def randn_like (noise : ℕ → ℕ → ℚ) (d : ℕ) (t : Tensor) : Tensor :=
  ⟨t.shape, (List.range t.data.length).map (noise d)⟩

/-- Two tensors have the same shape: equal shape lists and equally many
entries. -/
def Tensor.sameShape (a b : Tensor) : Prop :=
  a.shape = b.shape ∧ a.data.length = b.data.length

instance (a b : Tensor) : Decidable (a.sameShape b) := by
  unfold Tensor.sameShape; infer_instance

/-- Step size of a noise level, as computed on the line
step_size = eps * (sigma / sigmas[-1]) ** 2 of the source. -/
def langevin_step_size (sigmas : List ℚ) (eps sigma : ℚ) : ℚ :=
  eps * (sigma / sigmas.getLastD 0) ^ 2

/-- Broadcast of a scalar noise level to one value per batch element
(the source line used_sigmas = sigmas[labels].view(-1, 1, 1, 1), where
labels holds the level index once per batch element). -/
def broadcast_sigma (batch : ℕ) (sigma : ℚ) : Tensor :=
  ⟨[batch, 1, 1, 1], List.replicate batch sigma⟩

/-- Inner loop of the sampler (for t in range(T)): at each iteration it
appends the clamped current sample, draws z, evaluates the score and
rebinds x to x + step_size * score + z.  State is (remaining steps,
current x, next draw index); the result is (snapshots, final x, final
draw index). -/
def langevin_inner (score_nn : Tensor → Tensor → Tensor) (used_sigmas : Tensor)
    (step_size : ℚ) (sqrtFn : ℚ → ℚ) (noise : ℕ → ℕ → ℚ) :
    ℕ → Tensor → ℕ → List Tensor × Tensor × ℕ
  | 0, x, d => ([], x, d)
  | t + 1, x, d =>
    let snap := x.clamp (-1) 1
    let z := Tensor.scale (sqrtFn (2 * step_size)) (randn_like noise d x)
    let score := score_nn x used_sigmas
    let x1 := (x.add (Tensor.scale step_size score)).add z
    let r := langevin_inner score_nn used_sigmas step_size sqrtFn noise t x1 (d + 1)
    (snap :: r.1, r.2)

/-- Outer loop of the sampler (for label, sigma in enumerate(sigmas)):
label is the current enumeration index, the list argument the remaining
levels.  used_sigmas indexes the full schedule at label, exactly as
sigmas[labels] does in the source. -/
def langevin_levels (score_nn : Tensor → Tensor → Tensor) (sigmas : List ℚ)
    (eps : ℚ) (T : ℕ) (sqrtFn : ℚ → ℚ) (noise : ℕ → ℕ → ℚ) :
    ℕ → List ℚ → Tensor → ℕ → List Tensor × Tensor × ℕ
  | _, [], x, d => ([], x, d)
  | label, sigma :: rest, x, d =>
    let batch := x.shape.headD 0
    let used_sigmas := broadcast_sigma batch (sigmas.getD label 0)
    let step_size := langevin_step_size sigmas eps sigma
    let r1 := langevin_inner score_nn used_sigmas step_size sqrtFn noise T x d
    let r2 := langevin_levels score_nn sigmas eps T sqrtFn noise (label + 1) rest r1.2.1 r1.2.2
    (r1.1 ++ r2.1, r2.2)

/-- The annealed Langevin sampler, embedded from
src/score/annealed_langevin.py: returns the list of recorded snapshots. -/
def sample_anneal_langevin (x : Tensor) (score_nn : Tensor → Tensor → Tensor)
    (sigmas : List ℚ) (eps : ℚ) (T : ℕ) (sqrtFn : ℚ → ℚ)
    (noise : ℕ → ℕ → ℚ) : List Tensor :=
  (langevin_levels score_nn sigmas eps T sqrtFn noise 0 sigmas x 0).1

/-- Spec-side description of one pass over the schedule, written from the
spec text of section 4.1: each level uses its own sigma value directly
(broadcast to one value per batch element), the step size is
eps * (sigma / sigmas[last])^2, and each of the T inner iterations first
records the clamped snapshot, then draws z scaled by sqrt(2 * step_size),
then evaluates the score, then updates x = x + step_size * score + z. -/
def spec_levels (score_nn : Tensor → Tensor → Tensor) (sigmas : List ℚ)
    (eps : ℚ) (T : ℕ) (sqrtFn : ℚ → ℚ) (noise : ℕ → ℕ → ℚ) :
    List ℚ → Tensor → ℕ → List Tensor × Tensor × ℕ
  | [], x, d => ([], x, d)
  | sigma :: rest, x, d =>
    let used_sigmas := broadcast_sigma (x.shape.headD 0) sigma
    let step_size := eps * (sigma / sigmas.getLastD 0) ^ 2
    let r1 := langevin_inner score_nn used_sigmas step_size sqrtFn noise T x d
    let r2 := spec_levels score_nn sigmas eps T sqrtFn noise rest r1.2.1 r1.2.2
    (r1.1 ++ r2.1, r2.2)

/-- Spec-side sampler: all levels in index order, starting from the
input and draw index 0. -/
def spec_sample (x : Tensor) (score_nn : Tensor → Tensor → Tensor)
    (sigmas : List ℚ) (eps : ℚ) (T : ℕ) (sqrtFn : ℚ → ℚ)
    (noise : ℕ → ℕ → ℚ) : List Tensor :=
  (spec_levels score_nn sigmas eps T sqrtFn noise sigmas x 0).1

/-- Indexing a list at the length of a prefix returns the element after
that prefix. -/
theorem getD_append_cons (pre : List ℚ) (sigma : ℚ) (rest : List ℚ) :
    (pre ++ sigma :: rest).getD pre.length 0 = sigma := by
  induction pre with
  | nil => rfl
  | cons a l ih => simpa using ih

/-- Walking the remaining levels with the enumeration label equal to the
length of the consumed prefix agrees with the spec-side description. -/
theorem langevin_levels_eq_spec (score_nn : Tensor → Tensor → Tensor)
    (sigmas : List ℚ) (eps : ℚ) (T : ℕ) (sqrtFn : ℚ → ℚ)
    (noise : ℕ → ℕ → ℚ) :
    ∀ (rest pre : List ℚ) (x : Tensor) (d : ℕ), sigmas = pre ++ rest →
      langevin_levels score_nn sigmas eps T sqrtFn noise pre.length rest x d =
        spec_levels score_nn sigmas eps T sqrtFn noise rest x d := by
  intro rest
  induction rest with
  | nil => intro pre x d _; rfl
  | cons sigma rest ih =>
    intro pre x d hs
    have hget : sigmas.getD pre.length 0 = sigma := by
      rw [hs]; exact getD_append_cons pre sigma rest
    have hs2 : sigmas = (pre ++ [sigma]) ++ rest := by
      rw [hs, List.append_assoc]; rfl
    simp only [langevin_levels, spec_levels, hget, langevin_step_size]
    have hlen : pre.length + 1 = (pre ++ [sigma]).length := by simp
    rw [hlen, ih (pre ++ [sigma]) _ _ hs2]

/-- Concrete all-zero one-element batch tensor of shape [1, 1, 1, 1]. -/
def x0 : Tensor := ⟨[1, 1, 1, 1], [0]⟩

/-- Random source mocked to return zeros. -/
def zeroNoise : ℕ → ℕ → ℚ := fun _ _ => 0

/-- Score function that always returns zeros of the shape of its input. -/
def zeroScore : Tensor → Tensor → Tensor :=
  fun a _ => ⟨a.shape, a.data.map (fun _ => 0)⟩

/-- Identity stand-in for the square-root primitive in concrete runs. -/
def idSqrt : ℚ → ℚ := fun q => q

/-- C1: with a non-empty schedule, positive eps and positive T, the
sampler visits each element of sigmas exactly once in index order, and at
each level performs exactly T inner iterations, each of which records the
clamped snapshot, draws fresh noise scaled by sqrt(2 * step_size),
evaluates the score at the current x with the level sigma broadcast to
one value per batch element, and updates x to x + step_size * score + z:
the sampler coincides with the spec-side description spec_sample, which
is written exactly that way. -/
theorem sampler_refines_spec (x : Tensor) (score_nn : Tensor → Tensor → Tensor)
    (sigmas : List ℚ) (eps : ℚ) (T : ℕ) (sqrtFn : ℚ → ℚ) (noise : ℕ → ℕ → ℚ)
    (_hne : sigmas ≠ []) (_heps : 0 < eps) (_hT : 0 < T) :
    sample_anneal_langevin x score_nn sigmas eps T sqrtFn noise =
      spec_sample x score_nn sigmas eps T sqrtFn noise :=
  congrArg Prod.fst
    (langevin_levels_eq_spec score_nn sigmas eps T sqrtFn noise sigmas [] x 0 rfl)

/-- Witness for C1 at a concrete call. -/
theorem sampler_refines_spec_witness :
    sample_anneal_langevin x0 zeroScore [1, 1/2] 1 2 idSqrt zeroNoise =
      spec_sample x0 zeroScore [1, 1/2] 1 2 idSqrt zeroNoise :=
  sampler_refines_spec x0 zeroScore [1, 1/2] 1 2 idSqrt zeroNoise
    (by decide) (by decide) (by decide)

/-- Ratio of two quadratic step sizes over rationals. -/
theorem step_ratio_aux (eps L a b : ℚ) (he : eps ≠ 0) (hL : L ≠ 0) :
    eps * (a / L) ^ 2 / (eps * (b / L) ^ 2) = (a / b) ^ 2 := by
  by_cases hb : b = 0
  · simp [hb]
  · field_simp
    ring

/-- C4: with positive eps and positive last schedule element, the step
sizes of any two levels are in the ratio of the squares of their sigmas,
and the step size of a level is eps * (sigma / sigmas[last])^2. -/
theorem step_size_quadratic (sigmas : List ℚ) (eps : ℚ)
    (heps : 0 < eps) (hlast : 0 < sigmas.getLastD 0) :
    (∀ i j, i < sigmas.length → j < sigmas.length →
      langevin_step_size sigmas eps (sigmas.getD i 0) /
        langevin_step_size sigmas eps (sigmas.getD j 0) =
        (sigmas.getD i 0 / sigmas.getD j 0) ^ 2) ∧
    (∀ sigma, langevin_step_size sigmas eps sigma =
      eps * (sigma / sigmas.getLastD 0) ^ 2) := by
  constructor
  · intro i j _ _
    exact step_ratio_aux eps (sigmas.getLastD 0) (sigmas.getD i 0)
      (sigmas.getD j 0) (ne_of_gt heps) (ne_of_gt hlast)
  · intro sigma; rfl

/-- Witness for C4 on the schedule [4, 2, 1] with eps = 1, levels 0, 1. -/
theorem step_size_quadratic_witness :
    langevin_step_size [4, 2, 1] 1 (([4, 2, 1] : List ℚ).getD 0 0) /
      langevin_step_size [4, 2, 1] 1 (([4, 2, 1] : List ℚ).getD 1 0) =
      (([4, 2, 1] : List ℚ).getD 0 0 / ([4, 2, 1] : List ℚ).getD 1 0) ^ 2 :=
  (step_size_quadratic [4, 2, 1] 1 (by decide) (by decide)).1 0 1
    (by decide) (by decide)

/-- With zero inner iterations each level records nothing. -/
theorem langevin_levels_T_zero (score_nn : Tensor → Tensor → Tensor)
    (sigmas : List ℚ) (eps : ℚ) (sqrtFn : ℚ → ℚ) (noise : ℕ → ℕ → ℚ) :
    ∀ (rest : List ℚ) (label : ℕ) (x : Tensor) (d : ℕ),
      (langevin_levels score_nn sigmas eps 0 sqrtFn noise label rest x d).1 = [] := by
  intro rest
  induction rest with
  | nil => intro label x d; rfl
  | cons sigma rest ih =>
    intro label x d
    simp only [langevin_levels, langevin_inner]
    simpa using ih (label + 1) x d

/-- C5: with an empty schedule or T = 0 the sampler returns the empty
list; with an empty schedule the level loop body never runs, so the
schedule is never indexed and sigmas[last] is never used as a divisor. -/
theorem sampler_degenerate_empty (x : Tensor) (score_nn : Tensor → Tensor → Tensor)
    (sigmas : List ℚ) (eps : ℚ) (T : ℕ) (sqrtFn : ℚ → ℚ) (noise : ℕ → ℕ → ℚ)
    (h : sigmas = [] ∨ T = 0) :
    sample_anneal_langevin x score_nn sigmas eps T sqrtFn noise = [] := by
  rcases h with h | h
  · subst h; rfl
  · subst h
    exact langevin_levels_T_zero score_nn sigmas eps sqrtFn noise sigmas 0 x 0

/-- Witness for C5 : empty schedule on one side, zero T on the other. -/
theorem sampler_degenerate_empty_witness :
    sample_anneal_langevin x0 zeroScore [] 1 3 idSqrt zeroNoise = [] ∧
      sample_anneal_langevin x0 zeroScore [1, 1/2] 1 0 idSqrt zeroNoise = [] :=
  ⟨sampler_degenerate_empty x0 zeroScore [] 1 3 idSqrt zeroNoise (Or.inl rfl),
   sampler_degenerate_empty x0 zeroScore [1, 1/2] 1 0 idSqrt zeroNoise (Or.inr rfl)⟩

/-- Same shape is reflexive. -/
theorem sameShape_refl (a : Tensor) : a.sameShape a := ⟨rfl, rfl⟩

/-- Same shape is transitive. -/
theorem sameShape_trans {a b c : Tensor} (h1 : a.sameShape b)
    (h2 : b.sameShape c) : a.sameShape c :=
  ⟨h1.1.trans h2.1, h1.2.trans h2.2⟩

/-- Clamping keeps the shape of a tensor. -/
theorem clamp_sameShape (t : Tensor) (lo hi : ℚ) :
    (t.clamp lo hi).sameShape t := ⟨rfl, List.length_map _ _⟩

/-- One Langevin update keeps the shape of x when the score does. -/
theorem update_sameShape (x score z : Tensor) (step : ℚ)
    (hs : score.sameShape x) (hz : z.sameShape x) :
    ((x.add (Tensor.scale step score)).add z).sameShape x := by
  refine ⟨rfl, ?_⟩
  simp only [Tensor.add, Tensor.scale, List.length_zipWith, List.length_map]
  rw [hs.2, hz.2]
  simp

/-- The inner loop keeps shapes: every snapshot and the final x have the
shape of the x the loop started from, provided the score function
preserves shapes. -/
theorem langevin_inner_shape (score_nn : Tensor → Tensor → Tensor)
    (used_sigmas : Tensor) (step_size : ℚ) (sqrtFn : ℚ → ℚ)
    (noise : ℕ → ℕ → ℚ) (hscore : ∀ a s, (score_nn a s).sameShape a) :
    ∀ (T : ℕ) (x : Tensor) (d : ℕ),
      (∀ s ∈ (langevin_inner score_nn used_sigmas step_size sqrtFn noise T x d).1,
        s.sameShape x) ∧
      ((langevin_inner score_nn used_sigmas step_size sqrtFn noise T x d).2.1).sameShape x := by
  intro T
  induction T with
  | zero =>
    intro x d
    refine ⟨?_, sameShape_refl x⟩
    intro s hs
    cases hs
  | succ t ih =>
    intro x d
    have hx1 : ((x.add (Tensor.scale step_size (score_nn x used_sigmas))).add
        (Tensor.scale (sqrtFn (2 * step_size)) (randn_like noise d x))).sameShape x := by
      refine update_sameShape _ _ _ _ (hscore x used_sigmas) ?_
      exact ⟨rfl, by simp [Tensor.scale, randn_like]⟩
    constructor
    · intro s hs
      simp only [langevin_inner, List.mem_cons] at hs
      rcases hs with hs | hs
      · exact hs ▸ clamp_sameShape x (-1) 1
      · exact sameShape_trans ((ih _ (d + 1)).1 s hs) hx1
    · exact sameShape_trans (ih _ (d + 1)).2 hx1

/-- The level loop keeps shapes: every snapshot and the final x have the
shape of the initial x, provided the score function preserves shapes. -/
theorem langevin_levels_shape (score_nn : Tensor → Tensor → Tensor)
    (sigmas : List ℚ) (eps : ℚ) (T : ℕ) (sqrtFn : ℚ → ℚ) (noise : ℕ → ℕ → ℚ)
    (hscore : ∀ a s, (score_nn a s).sameShape a) :
    ∀ (rest : List ℚ) (label : ℕ) (x : Tensor) (d : ℕ),
      (∀ s ∈ (langevin_levels score_nn sigmas eps T sqrtFn noise label rest x d).1,
        s.sameShape x) ∧
      ((langevin_levels score_nn sigmas eps T sqrtFn noise label rest x d).2.1).sameShape x := by
  intro rest
  induction rest with
  | nil =>
    intro label x d
    refine ⟨?_, sameShape_refl x⟩
    intro s hs
    cases hs
  | cons sigma rest ih =>
    intro label x d
    simp only [langevin_levels]
    have hinner := langevin_inner_shape score_nn
      (broadcast_sigma (x.shape.headD 0) (sigmas.getD label 0))
      (langevin_step_size sigmas eps sigma) sqrtFn noise hscore T x d
    have hrest := ih (label + 1)
      (langevin_inner score_nn (broadcast_sigma (x.shape.headD 0) (sigmas.getD label 0))
        (langevin_step_size sigmas eps sigma) sqrtFn noise T x d).2.1
      (langevin_inner score_nn (broadcast_sigma (x.shape.headD 0) (sigmas.getD label 0))
        (langevin_step_size sigmas eps sigma) sqrtFn noise T x d).2.2
    constructor
    · intro s hs
      rcases List.mem_append.1 hs with hs | hs
      · exact hinner.1 s hs
      · exact sameShape_trans (hrest.1 s hs) hinner.2
    · exact sameShape_trans hrest.2 hinner.2

/-- The inner loop records one snapshot per iteration. -/
theorem langevin_inner_length (score_nn : Tensor → Tensor → Tensor)
    (used_sigmas : Tensor) (step_size : ℚ) (sqrtFn : ℚ → ℚ)
    (noise : ℕ → ℕ → ℚ) :
    ∀ (T : ℕ) (x : Tensor) (d : ℕ),
      (langevin_inner score_nn used_sigmas step_size sqrtFn noise T x d).1.length = T := by
  intro T
  induction T with
  | zero => intro x d; rfl
  | succ t ih => intro x d; simp [langevin_inner, ih]

/-- The level loop records T snapshots per remaining level. -/
theorem langevin_levels_length (score_nn : Tensor → Tensor → Tensor)
    (sigmas : List ℚ) (eps : ℚ) (T : ℕ) (sqrtFn : ℚ → ℚ) (noise : ℕ → ℕ → ℚ) :
    ∀ (rest : List ℚ) (label : ℕ) (x : Tensor) (d : ℕ),
      (langevin_levels score_nn sigmas eps T sqrtFn noise label rest x d).1.length =
        rest.length * T := by
  intro rest
  induction rest with
  | nil => intro label x d; simp [langevin_levels]
  | cons sigma rest ih =>
    intro label x d
    simp [langevin_levels, langevin_inner_length, ih, Nat.succ_mul, Nat.add_comm]

/-- C2: when the score function returns a tensor of the shape of its
input, the sampler returns exactly length(sigmas) * T snapshots, each of
the shape of the input x, in generation order. -/
theorem sampler_snapshot_count_and_shape (x : Tensor)
    (score_nn : Tensor → Tensor → Tensor) (sigmas : List ℚ) (eps : ℚ)
    (T : ℕ) (sqrtFn : ℚ → ℚ) (noise : ℕ → ℕ → ℚ)
    (hscore : ∀ a s, (score_nn a s).sameShape a) :
    (sample_anneal_langevin x score_nn sigmas eps T sqrtFn noise).length =
      sigmas.length * T ∧
    ∀ s ∈ sample_anneal_langevin x score_nn sigmas eps T sqrtFn noise,
      s.sameShape x :=
  ⟨langevin_levels_length score_nn sigmas eps T sqrtFn noise sigmas 0 x 0,
   (langevin_levels_shape score_nn sigmas eps T sqrtFn noise hscore sigmas 0 x 0).1⟩

/-- Witness for C2 with the zero score function on a two-level schedule. -/
theorem sampler_snapshot_count_and_shape_witness :
    (sample_anneal_langevin x0 zeroScore [1, 1/2] 1 2 idSqrt zeroNoise).length =
      ([1, 1/2] : List ℚ).length * 2 :=
  (sampler_snapshot_count_and_shape x0 zeroScore [1, 1/2] 1 2 idSqrt zeroNoise
    (fun a s => by simp [zeroScore, Tensor.sameShape])).1

/-- Clamping to [-1, 1] lands in [-1, 1]. -/
theorem clampVal_bounds (v : ℚ) :
    -1 ≤ clampVal (-1) 1 v ∧ clampVal (-1) 1 v ≤ 1 := by
  unfold clampVal
  exact ⟨le_min (le_max_right v (-1)) (by norm_num), min_le_right _ 1⟩

/-- Every snapshot of the inner loop is a clamped tensor. -/
theorem langevin_inner_mem_clamp (score_nn : Tensor → Tensor → Tensor)
    (used_sigmas : Tensor) (step_size : ℚ) (sqrtFn : ℚ → ℚ)
    (noise : ℕ → ℕ → ℚ) :
    ∀ (T : ℕ) (x : Tensor) (d : ℕ),
      ∀ s ∈ (langevin_inner score_nn used_sigmas step_size sqrtFn noise T x d).1,
        ∃ y : Tensor, s = y.clamp (-1) 1 := by
  intro T
  induction T with
  | zero => intro x d s hs; cases hs
  | succ t ih =>
    intro x d s hs
    simp only [langevin_inner, List.mem_cons] at hs
    rcases hs with hs | hs
    · exact ⟨x, hs⟩
    · exact ih _ (d + 1) s hs

/-- Every snapshot of the level loop is a clamped tensor. -/
theorem langevin_levels_mem_clamp (score_nn : Tensor → Tensor → Tensor)
    (sigmas : List ℚ) (eps : ℚ) (T : ℕ) (sqrtFn : ℚ → ℚ) (noise : ℕ → ℕ → ℚ) :
    ∀ (rest : List ℚ) (label : ℕ) (x : Tensor) (d : ℕ),
      ∀ s ∈ (langevin_levels score_nn sigmas eps T sqrtFn noise label rest x d).1,
        ∃ y : Tensor, s = y.clamp (-1) 1 := by
  intro rest
  induction rest with
  | nil => intro label x d s hs; cases hs
  | cons sigma rest ih =>
    intro label x d s hs
    simp only [langevin_levels] at hs
    rcases List.mem_append.1 hs with hs | hs
    · exact langevin_inner_mem_clamp score_nn _ _ sqrtFn noise T x d s hs
    · exact ih (label + 1) _ _ s hs

/-- C3: every element of every returned snapshot lies in [-1, 1]. -/
theorem sampler_snapshots_in_Icc (x : Tensor)
    (score_nn : Tensor → Tensor → Tensor) (sigmas : List ℚ) (eps : ℚ)
    (T : ℕ) (sqrtFn : ℚ → ℚ) (noise : ℕ → ℕ → ℚ) :
    ∀ s ∈ sample_anneal_langevin x score_nn sigmas eps T sqrtFn noise,
      ∀ v ∈ s.data, -1 ≤ v ∧ v ≤ 1 := by
  intro s hs v hv
  obtain ⟨y, rfl⟩ :=
    langevin_levels_mem_clamp score_nn sigmas eps T sqrtFn noise sigmas 0 x 0 s hs
  simp only [Tensor.clamp, List.mem_map] at hv
  obtain ⟨w, _, rfl⟩ := hv
  exact clampVal_bounds w

/-- Witness for C3 on a concrete run. -/
theorem sampler_snapshots_in_Icc_witness : -1 ≤ (0 : ℚ) ∧ (0 : ℚ) ≤ 1 :=
  sampler_snapshots_in_Icc x0 zeroScore [1] 1 1 idSqrt zeroNoise
    (x0.clamp (-1) 1) (by decide) 0 (by decide)

/-- C9: zero score function, all-zero input, one level, T = 1, random
source mocked to zeros: the sampler returns exactly one snapshot, the
clamped input, that is the zero tensor. -/
theorem sampler_zero_scenario :
    sample_anneal_langevin x0 zeroScore [1] (62 / 10000000) 1 idSqrt zeroNoise =
      [x0] := by decide

/-- Variant of the inner loop that records the raw pre-update states
instead of their clamped copies. -/
def langevin_inner_states (score_nn : Tensor → Tensor → Tensor)
    (used_sigmas : Tensor) (step_size : ℚ) (sqrtFn : ℚ → ℚ)
    (noise : ℕ → ℕ → ℚ) :
    ℕ → Tensor → ℕ → List Tensor × Tensor × ℕ
  | 0, x, d => ([], x, d)
  | t + 1, x, d =>
    let z := Tensor.scale (sqrtFn (2 * step_size)) (randn_like noise d x)
    let score := score_nn x used_sigmas
    let x1 := (x.add (Tensor.scale step_size score)).add z
    let r := langevin_inner_states score_nn used_sigmas step_size sqrtFn noise t x1 (d + 1)
    (x :: r.1, r.2)

/-- Variant of the level loop that records the raw pre-update states. -/
def langevin_levels_states (score_nn : Tensor → Tensor → Tensor) (sigmas : List ℚ)
    (eps : ℚ) (T : ℕ) (sqrtFn : ℚ → ℚ) (noise : ℕ → ℕ → ℚ) :
    ℕ → List ℚ → Tensor → ℕ → List Tensor × Tensor × ℕ
  | _, [], x, d => ([], x, d)
  | label, sigma :: rest, x, d =>
    let batch := x.shape.headD 0
    let used_sigmas := broadcast_sigma batch (sigmas.getD label 0)
    let step_size := langevin_step_size sigmas eps sigma
    let r1 := langevin_inner_states score_nn used_sigmas step_size sqrtFn noise T x d
    let r2 := langevin_levels_states score_nn sigmas eps T sqrtFn noise (label + 1) rest r1.2.1 r1.2.2
    (r1.1 ++ r2.1, r2.2)

/-- The list of pre-update states of a sampler run, in generation
order. -/
def anneal_states (x : Tensor) (score_nn : Tensor → Tensor → Tensor)
    (sigmas : List ℚ) (eps : ℚ) (T : ℕ) (sqrtFn : ℚ → ℚ)
    (noise : ℕ → ℕ → ℚ) : List Tensor :=
  (langevin_levels_states score_nn sigmas eps T sqrtFn noise 0 sigmas x 0).1

/-- The inner loop records the clamps of the pre-update states, and ends
in the same state as the state-recording variant. -/
theorem langevin_inner_eq_states (score_nn : Tensor → Tensor → Tensor)
    (used_sigmas : Tensor) (step_size : ℚ) (sqrtFn : ℚ → ℚ)
    (noise : ℕ → ℕ → ℚ) :
    ∀ (T : ℕ) (x : Tensor) (d : ℕ),
      (langevin_inner score_nn used_sigmas step_size sqrtFn noise T x d).1 =
        (langevin_inner_states score_nn used_sigmas step_size sqrtFn noise T x d).1.map
          (fun y => y.clamp (-1) 1) ∧
      (langevin_inner score_nn used_sigmas step_size sqrtFn noise T x d).2 =
        (langevin_inner_states score_nn used_sigmas step_size sqrtFn noise T x d).2 := by
  intro T
  induction T with
  | zero => intro x d; exact ⟨rfl, rfl⟩
  | succ t ih =>
    intro x d
    simp only [langevin_inner, langevin_inner_states, List.map_cons]
    exact ⟨by rw [(ih _ (d + 1)).1], (ih _ (d + 1)).2⟩

/-- The level loop records the clamps of the pre-update states, and ends
in the same state as the state-recording variant. -/
theorem langevin_levels_eq_states (score_nn : Tensor → Tensor → Tensor)
    (sigmas : List ℚ) (eps : ℚ) (T : ℕ) (sqrtFn : ℚ → ℚ) (noise : ℕ → ℕ → ℚ) :
    ∀ (rest : List ℚ) (label : ℕ) (x : Tensor) (d : ℕ),
      (langevin_levels score_nn sigmas eps T sqrtFn noise label rest x d).1 =
        (langevin_levels_states score_nn sigmas eps T sqrtFn noise label rest x d).1.map
          (fun y => y.clamp (-1) 1) ∧
      (langevin_levels score_nn sigmas eps T sqrtFn noise label rest x d).2 =
        (langevin_levels_states score_nn sigmas eps T sqrtFn noise label rest x d).2 := by
  intro rest
  induction rest with
  | nil => intro label x d; exact ⟨rfl, rfl⟩
  | cons sigma rest ih =>
    intro label x d
    simp only [langevin_levels, langevin_levels_states, List.map_append]
    have hi := langevin_inner_eq_states score_nn
      (broadcast_sigma (x.shape.headD 0) (sigmas.getD label 0))
      (langevin_step_size sigmas eps sigma) sqrtFn noise T x d
    have hr := ih (label + 1)
      (langevin_inner_states score_nn
        (broadcast_sigma (x.shape.headD 0) (sigmas.getD label 0))
        (langevin_step_size sigmas eps sigma) sqrtFn noise T x d).2.1
      (langevin_inner_states score_nn
        (broadcast_sigma (x.shape.headD 0) (sigmas.getD label 0))
        (langevin_step_size sigmas eps sigma) sqrtFn noise T x d).2.2
    rw [hi.1, hi.2, hr.1, hr.2]
    exact ⟨rfl, rfl⟩

/-- C6: the snapshot list is exactly the list of clamps of the states x
held before each update, in order; with a non-empty schedule and
positive T the first snapshot is the clamp of the initial input; since
the states list has exactly length(sigmas) * T entries, the state
produced by the final update is not among the recorded snapshots. -/
theorem sampler_snapshots_pre_update (x : Tensor)
    (score_nn : Tensor → Tensor → Tensor) (sigmas : List ℚ) (eps : ℚ)
    (T : ℕ) (sqrtFn : ℚ → ℚ) (noise : ℕ → ℕ → ℚ) :
    sample_anneal_langevin x score_nn sigmas eps T sqrtFn noise =
      (anneal_states x score_nn sigmas eps T sqrtFn noise).map
        (fun y => y.clamp (-1) 1) ∧
    (sigmas ≠ [] → 0 < T →
      (sample_anneal_langevin x score_nn sigmas eps T sqrtFn noise).head? =
        some (x.clamp (-1) 1)) ∧
    (anneal_states x score_nn sigmas eps T sqrtFn noise).length =
      sigmas.length * T := by
  have hmap :=
    (langevin_levels_eq_states score_nn sigmas eps T sqrtFn noise sigmas 0 x 0).1
  refine ⟨hmap, ?_, ?_⟩
  · intro hne hT
    rcases sigmas with _ | ⟨sigma, rest⟩
    · exact absurd rfl hne
    rcases T with _ | t
    · exact absurd hT (by simp)
    simp [sample_anneal_langevin, langevin_levels, langevin_inner]
  · have hlen := langevin_levels_length score_nn sigmas eps T sqrtFn noise sigmas 0 x 0
    have h2 := congrArg List.length hmap
    simp only [List.length_map] at h2
    unfold anneal_states
    rw [← h2]
    exact hlen

/-- Witness for C6: on a concrete run the first snapshot is the clamped
input. -/
theorem sampler_snapshots_pre_update_witness :
    (sample_anneal_langevin x0 zeroScore [1] 1 1 idSqrt zeroNoise).head? =
      some (x0.clamp (-1) 1) :=
  (sampler_snapshots_pre_update x0 zeroScore [1] 1 1 idSqrt zeroNoise).2.1
    (by decide) (by decide)

/-- Random source that is pointwise equal to zeroNoise but syntactically
different. -/
def zeroNoise2 : ℕ → ℕ → ℚ := fun d i => zeroNoise d i * 1

/-- C8: the sampler is a pure function of its inputs and the random
stream: two runs with the same x, score function, schedule, eps, T,
square root and pointwise-equal random draws return the same snapshot
list. -/
theorem sampler_deterministic (x : Tensor)
    (score_nn : Tensor → Tensor → Tensor) (sigmas : List ℚ) (eps : ℚ)
    (T : ℕ) (sqrtFn : ℚ → ℚ) (noise1 noise2 : ℕ → ℕ → ℚ)
    (h : ∀ d i, noise1 d i = noise2 d i) :
    sample_anneal_langevin x score_nn sigmas eps T sqrtFn noise1 =
      sample_anneal_langevin x score_nn sigmas eps T sqrtFn noise2 := by
  have hn : noise1 = noise2 := funext fun d => funext fun i => h d i
  rw [hn]

/-- Witness for C8 with two pointwise-equal mocked random sources. -/
theorem sampler_deterministic_witness :
    sample_anneal_langevin x0 zeroScore [1] 1 1 idSqrt zeroNoise =
      sample_anneal_langevin x0 zeroScore [1] 1 1 idSqrt zeroNoise2 :=
  sampler_deterministic x0 zeroScore [1] 1 1 idSqrt zeroNoise zeroNoise2
    (fun d i => by simp [zeroNoise, zeroNoise2])

/-- Store of allocated tensors: cell i holds the i-th tensor ever
allocated.  Models object identity: torch.clamp and the arithmetic
operators allocate fresh tensors; the assignment x = x + ... in the
source rebinds the local name to the freshly allocated result. -/
structure TensorStore where
  cells : List Tensor
deriving Repr, DecidableEq

/-- Value currently held in a cell. -/
def TensorStore.read (st : TensorStore) (r : ℕ) : Tensor :=
  st.cells.getD r ⟨[], []⟩

/-- Allocate a fresh cell holding a tensor; returns the new store and
the reference to the new cell. -/
def TensorStore.alloc (st : TensorStore) (t : Tensor) : TensorStore × ℕ :=
  (⟨st.cells ++ [t]⟩, st.cells.length)

/-- Inner loop instrumented with the store: the local name x is a
reference; each update allocates the result of x + step_size * score + z
and rebinds the reference, exactly as the source assignment does.
Result: (snapshots, store, reference bound to x, draw index). -/
def langevin_inner_alloc (score_nn : Tensor → Tensor → Tensor)
    (used_sigmas : Tensor) (step_size : ℚ) (sqrtFn : ℚ → ℚ)
    (noise : ℕ → ℕ → ℚ) :
    ℕ → TensorStore → ℕ → ℕ → List Tensor × TensorStore × ℕ × ℕ
  | 0, st, r, d => ([], st, r, d)
  | t + 1, st, r, d =>
    let xv := st.read r
    let snap := xv.clamp (-1) 1
    let z := Tensor.scale (sqrtFn (2 * step_size)) (randn_like noise d xv)
    let score := score_nn xv used_sigmas
    let a1 := st.alloc ((xv.add (Tensor.scale step_size score)).add z)
    let rr := langevin_inner_alloc score_nn used_sigmas step_size sqrtFn noise t a1.1 a1.2 (d + 1)
    (snap :: rr.1, rr.2)

/-- Level loop instrumented with the store. -/
def langevin_levels_alloc (score_nn : Tensor → Tensor → Tensor)
    (sigmas : List ℚ) (eps : ℚ) (T : ℕ) (sqrtFn : ℚ → ℚ)
    (noise : ℕ → ℕ → ℚ) :
    ℕ → List ℚ → TensorStore → ℕ → ℕ → List Tensor × TensorStore × ℕ × ℕ
  | _, [], st, r, d => ([], st, r, d)
  | label, sigma :: rest, st, r, d =>
    let batch := (st.read r).shape.headD 0
    let used_sigmas := broadcast_sigma batch (sigmas.getD label 0)
    let step_size := langevin_step_size sigmas eps sigma
    let r1 := langevin_inner_alloc score_nn used_sigmas step_size sqrtFn noise T st r d
    let r2 := langevin_levels_alloc score_nn sigmas eps T sqrtFn noise (label + 1) rest
      r1.2.1 r1.2.2.1 r1.2.2.2
    (r1.1 ++ r2.1, r2.2)

/-- The sampler on the store model: the caller passes the store and the
reference its tensor x lives in. -/
def sample_anneal_langevin_alloc (st : TensorStore) (xref : ℕ)
    (score_nn : Tensor → Tensor → Tensor) (sigmas : List ℚ) (eps : ℚ)
    (T : ℕ) (sqrtFn : ℚ → ℚ) (noise : ℕ → ℕ → ℚ) :
    List Tensor × TensorStore × ℕ × ℕ :=
  langevin_levels_alloc score_nn sigmas eps T sqrtFn noise 0 sigmas st xref 0

/-- Appending to a list and indexing at the old length returns the new
element. -/
theorem getD_append_self (l : List Tensor) (v dflt : Tensor) :
    (l ++ [v]).getD l.length dflt = v := by
  induction l with
  | nil => rfl
  | cons a t ih => simp [ih]

/-- Appending to a list does not change indexing within the old part. -/
theorem getD_append_left (l l2 : List Tensor) (i : ℕ) (dflt : Tensor)
    (h : i < l.length) : (l ++ l2).getD i dflt = l.getD i dflt := by
  induction l generalizing i with
  | nil => cases h
  | cons a t ih =>
    cases i with
    | zero => rfl
    | succ i => simpa using ih i (Nat.lt_of_succ_lt_succ h)

/-- The instrumented inner loop only ever appends fresh cells. -/
theorem langevin_inner_alloc_extends (score_nn : Tensor → Tensor → Tensor)
    (used_sigmas : Tensor) (step_size : ℚ) (sqrtFn : ℚ → ℚ)
    (noise : ℕ → ℕ → ℚ) :
    ∀ (T : ℕ) (st : TensorStore) (r d : ℕ),
      ∃ l, (langevin_inner_alloc score_nn used_sigmas step_size sqrtFn noise T st r d).2.1.cells =
        st.cells ++ l := by
  intro T
  induction T with
  | zero => intro st r d; exact ⟨[], by simp [langevin_inner_alloc]⟩
  | succ t ih =>
    intro st r d
    obtain ⟨l, hl⟩ := ih
      (st.alloc (((st.read r).add (Tensor.scale step_size (score_nn (st.read r) used_sigmas))).add
        (Tensor.scale (sqrtFn (2 * step_size)) (randn_like noise d (st.read r))))).1
      (st.alloc (((st.read r).add (Tensor.scale step_size (score_nn (st.read r) used_sigmas))).add
        (Tensor.scale (sqrtFn (2 * step_size)) (randn_like noise d (st.read r))))).2
      (d + 1)
    refine ⟨[((st.read r).add (Tensor.scale step_size (score_nn (st.read r) used_sigmas))).add
      (Tensor.scale (sqrtFn (2 * step_size)) (randn_like noise d (st.read r)))] ++ l, ?_⟩
    simp only [langevin_inner_alloc]
    rw [hl]
    simp [TensorStore.alloc]

/-- The instrumented level loop only ever appends fresh cells. -/
theorem langevin_levels_alloc_extends (score_nn : Tensor → Tensor → Tensor)
    (sigmas : List ℚ) (eps : ℚ) (T : ℕ) (sqrtFn : ℚ → ℚ)
    (noise : ℕ → ℕ → ℚ) :
    ∀ (rest : List ℚ) (label : ℕ) (st : TensorStore) (r d : ℕ),
      ∃ l, (langevin_levels_alloc score_nn sigmas eps T sqrtFn noise label rest st r d).2.1.cells =
        st.cells ++ l := by
  intro rest
  induction rest with
  | nil => intro label st r d; exact ⟨[], by simp [langevin_levels_alloc]⟩
  | cons sigma rest ih =>
    intro label st r d
    obtain ⟨l1, hl1⟩ := langevin_inner_alloc_extends score_nn
      (broadcast_sigma ((st.read r).shape.headD 0) (sigmas.getD label 0))
      (langevin_step_size sigmas eps sigma) sqrtFn noise T st r d
    obtain ⟨l2, hl2⟩ := ih (label + 1)
      (langevin_inner_alloc score_nn
        (broadcast_sigma ((st.read r).shape.headD 0) (sigmas.getD label 0))
        (langevin_step_size sigmas eps sigma) sqrtFn noise T st r d).2.1
      (langevin_inner_alloc score_nn
        (broadcast_sigma ((st.read r).shape.headD 0) (sigmas.getD label 0))
        (langevin_step_size sigmas eps sigma) sqrtFn noise T st r d).2.2.1
      (langevin_inner_alloc score_nn
        (broadcast_sigma ((st.read r).shape.headD 0) (sigmas.getD label 0))
        (langevin_step_size sigmas eps sigma) sqrtFn noise T st r d).2.2.2
    refine ⟨l1 ++ l2, ?_⟩
    simp only [langevin_levels_alloc]
    rw [hl2, hl1, List.append_assoc]

/-- The instrumented inner loop simulates the value-level inner loop:
same snapshots, the reference ends bound to the value-level final x, and
the draw counters agree. -/
theorem langevin_inner_alloc_sim (score_nn : Tensor → Tensor → Tensor)
    (used_sigmas : Tensor) (step_size : ℚ) (sqrtFn : ℚ → ℚ)
    (noise : ℕ → ℕ → ℚ) :
    ∀ (T : ℕ) (st : TensorStore) (r d : ℕ),
      (langevin_inner_alloc score_nn used_sigmas step_size sqrtFn noise T st r d).1 =
        (langevin_inner score_nn used_sigmas step_size sqrtFn noise T (st.read r) d).1 ∧
      (langevin_inner_alloc score_nn used_sigmas step_size sqrtFn noise T st r d).2.1.read
          (langevin_inner_alloc score_nn used_sigmas step_size sqrtFn noise T st r d).2.2.1 =
        (langevin_inner score_nn used_sigmas step_size sqrtFn noise T (st.read r) d).2.1 ∧
      (langevin_inner_alloc score_nn used_sigmas step_size sqrtFn noise T st r d).2.2.2 =
        (langevin_inner score_nn used_sigmas step_size sqrtFn noise T (st.read r) d).2.2 := by
  intro T
  induction T with
  | zero => intro st r d; exact ⟨rfl, rfl, rfl⟩
  | succ t ih =>
    intro st r d
    have hx1 : (st.alloc (((st.read r).add
        (Tensor.scale step_size (score_nn (st.read r) used_sigmas))).add
        (Tensor.scale (sqrtFn (2 * step_size)) (randn_like noise d (st.read r))))).1.read
        (st.alloc (((st.read r).add
        (Tensor.scale step_size (score_nn (st.read r) used_sigmas))).add
        (Tensor.scale (sqrtFn (2 * step_size)) (randn_like noise d (st.read r))))).2 =
        ((st.read r).add
          (Tensor.scale step_size (score_nn (st.read r) used_sigmas))).add
          (Tensor.scale (sqrtFn (2 * step_size)) (randn_like noise d (st.read r))) :=
      getD_append_self st.cells _ _
    have hrec := ih
      (st.alloc (((st.read r).add (Tensor.scale step_size (score_nn (st.read r) used_sigmas))).add
        (Tensor.scale (sqrtFn (2 * step_size)) (randn_like noise d (st.read r))))).1
      (st.alloc (((st.read r).add (Tensor.scale step_size (score_nn (st.read r) used_sigmas))).add
        (Tensor.scale (sqrtFn (2 * step_size)) (randn_like noise d (st.read r))))).2
      (d + 1)
    rw [hx1] at hrec
    simp only [langevin_inner_alloc, langevin_inner]
    exact ⟨by rw [hrec.1], hrec.2.1, hrec.2.2⟩

/-- The instrumented level loop simulates the value-level level loop. -/
theorem langevin_levels_alloc_sim (score_nn : Tensor → Tensor → Tensor)
    (sigmas : List ℚ) (eps : ℚ) (T : ℕ) (sqrtFn : ℚ → ℚ)
    (noise : ℕ → ℕ → ℚ) :
    ∀ (rest : List ℚ) (label : ℕ) (st : TensorStore) (r d : ℕ),
      (langevin_levels_alloc score_nn sigmas eps T sqrtFn noise label rest st r d).1 =
        (langevin_levels score_nn sigmas eps T sqrtFn noise label rest (st.read r) d).1 ∧
      (langevin_levels_alloc score_nn sigmas eps T sqrtFn noise label rest st r d).2.1.read
          (langevin_levels_alloc score_nn sigmas eps T sqrtFn noise label rest st r d).2.2.1 =
        (langevin_levels score_nn sigmas eps T sqrtFn noise label rest (st.read r) d).2.1 ∧
      (langevin_levels_alloc score_nn sigmas eps T sqrtFn noise label rest st r d).2.2.2 =
        (langevin_levels score_nn sigmas eps T sqrtFn noise label rest (st.read r) d).2.2 := by
  intro rest
  induction rest with
  | nil => intro label st r d; exact ⟨rfl, rfl, rfl⟩
  | cons sigma rest ih =>
    intro label st r d
    have hinner := langevin_inner_alloc_sim score_nn
      (broadcast_sigma ((st.read r).shape.headD 0) (sigmas.getD label 0))
      (langevin_step_size sigmas eps sigma) sqrtFn noise T st r d
    have hrest := ih (label + 1)
      (langevin_inner_alloc score_nn
        (broadcast_sigma ((st.read r).shape.headD 0) (sigmas.getD label 0))
        (langevin_step_size sigmas eps sigma) sqrtFn noise T st r d).2.1
      (langevin_inner_alloc score_nn
        (broadcast_sigma ((st.read r).shape.headD 0) (sigmas.getD label 0))
        (langevin_step_size sigmas eps sigma) sqrtFn noise T st r d).2.2.1
      (langevin_inner_alloc score_nn
        (broadcast_sigma ((st.read r).shape.headD 0) (sigmas.getD label 0))
        (langevin_step_size sigmas eps sigma) sqrtFn noise T st r d).2.2.2
    simp only [langevin_levels_alloc, langevin_levels]
    refine ⟨?_, ?_, ?_⟩
    · rw [hinner.1, hrest.1, hinner.2.1, hinner.2.2]
    · rw [hrest.2.1, hinner.2.1, hinner.2.2]
    · rw [hrest.2.2, hinner.2.1, hinner.2.2]

/-- Score function that always returns ones of the shape of its input,
used to exercise a run whose updates change the sample. -/
def oneScore : Tensor → Tensor → Tensor :=
  fun a _ => ⟨a.shape, a.data.map (fun _ => 1)⟩

/-- Store holding only the caller tensor x0, in cell 0. -/
def store0 : TensorStore := ⟨[x0]⟩

/-- C7 counterexample: a concrete run with a nonzero score.  After the
run the cell holding the caller tensor still holds its original value,
while the reference the sampler leaves x bound to holds a different
tensor: the update produced a new value and rebound the name instead of
modifying the caller tensor. -/
theorem sampler_inplace_counterexample :
    (sample_anneal_langevin_alloc store0 0 oneScore [1] 1 1 idSqrt zeroNoise).2.1.read 0 = x0 ∧
    (sample_anneal_langevin_alloc store0 0 oneScore [1] 1 1 idSqrt zeroNoise).2.1.read
      (sample_anneal_langevin_alloc store0 0 oneScore [1] 1 1 idSqrt zeroNoise).2.2.1 ≠ x0 := by
  have hmax : max (0 : ℚ) (-1) = 0 := by decide
  have hmin : min (0 : ℚ) 1 = 0 := by decide
  have hrun : sample_anneal_langevin_alloc store0 0 oneScore [1] 1 1 idSqrt zeroNoise =
      ([x0], ⟨[x0, ⟨[1, 1, 1, 1], [1]⟩]⟩, 1, 1) := by
    norm_num [sample_anneal_langevin_alloc, langevin_levels_alloc, langevin_inner_alloc,
      langevin_step_size, TensorStore.read, TensorStore.alloc, store0, x0, oneScore,
      broadcast_sigma, randn_like, zeroNoise, idSqrt, Tensor.add, Tensor.scale,
      Tensor.clamp, clampVal, hmax, hmin, Function.comp, List.range_succ]
  rw [hrun]
  exact ⟨rfl, by decide⟩

/-- C7 (amended): the sampler never mutates a pre-existing cell: every
tensor the caller allocated beforehand reads back unchanged after the
run, and the snapshots agree with the value-level sampler applied to the
value the caller reference held.  The source updates x by allocating
x + step_size * score + z afresh and rebinding the local name. -/
theorem sampler_rebinds_not_mutates (score_nn : Tensor → Tensor → Tensor)
    (sigmas : List ℚ) (eps : ℚ) (T : ℕ) (sqrtFn : ℚ → ℚ) (noise : ℕ → ℕ → ℚ)
    (st : TensorStore) (xref i : ℕ) (hi : i < st.cells.length) :
    (sample_anneal_langevin_alloc st xref score_nn sigmas eps T sqrtFn noise).2.1.read i =
      st.read i ∧
    (sample_anneal_langevin_alloc st xref score_nn sigmas eps T sqrtFn noise).1 =
      sample_anneal_langevin (st.read xref) score_nn sigmas eps T sqrtFn noise := by
  constructor
  · obtain ⟨l, hl⟩ :=
      langevin_levels_alloc_extends score_nn sigmas eps T sqrtFn noise sigmas 0 st xref 0
    unfold sample_anneal_langevin_alloc
    unfold TensorStore.read
    rw [hl]
    exact getD_append_left st.cells l i _ hi
  · exact (langevin_levels_alloc_sim score_nn sigmas eps T sqrtFn noise sigmas 0 st xref 0).1

/-- Witness for the amended C7 on the concrete store. -/
theorem sampler_rebinds_not_mutates_witness :
    (sample_anneal_langevin_alloc store0 0 oneScore [1] 1 1 idSqrt zeroNoise).2.1.read 0 =
      store0.read 0 :=
  (sampler_rebinds_not_mutates oneScore [1] 1 1 idSqrt zeroNoise store0 0 0 (by decide)).1

/-- Dimensions of a torch.nn.Linear module; the learned weights play no
role in the dimensional claims. -/
structure Linear where
  in_features : ℕ
  out_features : ℕ
deriving Repr, DecidableEq

/-- Fields of the attention layer set by AttLayer.__init__ in
src/ddpm/models/layers.py. -/
structure AttLayer where
  att_dim : ℕ
  scale : ℝ
  n_heads : ℕ
  proj : Linear
  out : Linear

/-- AttLayer.__init__: att_dim = n_channels * 10, scale = att_dim ** (-0.5),
proj = Linear(n_channels, 3 * n_heads * att_dim),
out = Linear(n_heads * att_dim, n_channels). -/
noncomputable def AttLayer.init (n_channels : ℕ) (n_heads : ℕ) : AttLayer :=
  { att_dim := n_channels * 10,
    scale := ((n_channels * 10 : ℕ) : ℝ) ^ (-(1 : ℝ) / 2),
    n_heads := n_heads,
    proj := ⟨n_channels, 3 * n_heads * (n_channels * 10)⟩,
    out := ⟨n_heads * (n_channels * 10), n_channels⟩ }

/-- C10: the per-head attention dimension equals the channel count times
10 — independent of the number of heads, so it is not the head
dimension — and the softmax scaling factor equals
(n_channels * 10) ^ (-0.5). -/
theorem attlayer_att_dim_scale (c h : ℕ) :
    (AttLayer.init c h).att_dim = c * 10 ∧
    (AttLayer.init c h).scale = ((c : ℝ) * 10) ^ (-(1 : ℝ) / 2) ∧
    ∀ h2 : ℕ, (AttLayer.init c h2).att_dim = (AttLayer.init c h).att_dim := by
  refine ⟨rfl, ?_, fun h2 => rfl⟩
  have hb : ((c * 10 : ℕ) : ℝ) = (c : ℝ) * 10 := by push_cast; ring
  simp [AttLayer.init, hb]
